import Mathlib

/-!
Verification of the kimi-cli runtime core against its specification.

The Python sources under `src/kimi_cli` are shallowly embedded as Lean
definitions.  Components whose implementation is not part of the shown
sources (the retry policy, the wire serializers, the approval protocol,
`should_auto_compact` and the `custom_instruction` extension of
`SimpleCompaction.prepare`) are modelled from the specification; each such
definition carries a doc comment starting with `Modelled from the spec:`.
-/

set_option maxHeartbeats 1000000
set_option maxRecDepth 8000

namespace KimiCli

/-- Role of a chat message (`kosong.message.Message.role`). -/
inductive Role
  | system
  | user
  | assistant
  | tool
deriving DecidableEq

/-- String form of a role, as interpolated into the compaction headers. -/
def Role.toStr : Role → String
  | .system => "system"
  | .user => "user"
  | .assistant => "assistant"
  | .tool => "tool"

/-- Content parts of messages (`kimi_cli.wire.types`: `TextPart`, `ThinkPart`,
`ImageURLPart`). -/
inductive ContentPart
  | text (text : String)
  | think (think : String)
  | image_url (url : String) (id : Option String)
deriving DecidableEq

/-- Whether a content part is a `ThinkPart` (`isinstance(part, ThinkPart)`). -/
def ContentPart.isThink : ContentPart → Bool
  | .think _ => true
  | _ => false

/-- Whether a content part is a `TextPart` (`isinstance(part, TextPart)`). -/
def ContentPart.isText : ContentPart → Bool
  | .text _ => true
  | _ => false

/-- Chat message (`kosong.message.Message`): a role plus ordered content parts. -/
structure Message where
  role : Role
  content : List ContentPart
deriving DecidableEq

/-- Test of `msg.role in ("user", "assistant")` from `SimpleCompaction.prepare`. -/
def isUA (m : Message) : Bool :=
  match m.role with
  | .user => true
  | .assistant => true
  | _ => false

namespace SimpleCompaction

/-- Modelled from the spec: the fixed compaction instruction `prompts.COMPACT`.  The
`prompts` module is not part of the shown sources; every claim treats it as a fixed
string whose exact text is irrelevant, so a representative text is used. -/
def COMPACT : String :=
  "Summarize the conversation above into a compact context that preserves all information needed to continue the task."

/-- Downward index loop of `SimpleCompaction.prepare`, expressed on the reversed
message list: returns the length of the shortest suffix of the original list
containing exactly `need` user/assistant messages (that is,
`len(history) - preserve_start_index`), or `none` when fewer than `need`
user/assistant messages exist (`n_preserved < max_preserved_messages`). -/
def preserveSuffixLen : Nat → List Message → Option Nat
  | _, [] => none
  | need, m :: rest =>
    if isUA m then
      if need ≤ 1 then some 1
      else Option.map (fun s => s + 1) (preserveSuffixLen (need - 1) rest)
    else Option.map (fun s => s + 1) (preserveSuffixLen need rest)

/-- Serialization loop of `SimpleCompaction.prepare`: for the `i`-th message of
`to_compact` (0-based), append the header text part
`"## Message {i+1}\nRole: {role}\nContent:\n"` followed by the message's content
with `ThinkPart`s dropped. -/
def mkCompactContent : Nat → List Message → List ContentPart
  | _, [] => []
  | i, m :: rest =>
    (ContentPart.text
        ("## Message " ++ toString (i + 1) ++ "\nRole: " ++ m.role.toStr ++ "\nContent:\n")
      :: m.content.filter (fun p => !p.isThink))
      ++ mkCompactContent (i + 1) rest

/-- Shallow embedding of `SimpleCompaction.prepare` (`kimi_cli/soul/compaction.py`).
Returns `(compact_message, to_preserve)`.  The scan for `preserve_start_index` is
`preserveSuffixLen` on the reversed list; `k = len - s` is `preserve_start_index`. -/
def prepare (max_preserved_messages : Int) (messages : List Message) :
    Option Message × List Message :=
  if messages.isEmpty || max_preserved_messages ≤ 0 then (none, messages)
  else
    match preserveSuffixLen max_preserved_messages.toNat messages.reverse with
    | none => (none, messages)
    | some s =>
      let k := messages.length - s
      let to_compact := messages.take k
      let to_preserve := messages.drop k
      if to_compact.isEmpty then (none, to_preserve)
      else
        (some ⟨Role.user, mkCompactContent 0 to_compact ++ [ContentPart.text ("\n" ++ COMPACT)]⟩,
          to_preserve)

/-- Modelled from the spec: the custom-instruction block appended after the fixed
compaction instruction when a custom instruction is given (block label taken from the
repository's own test `test_prepare_appends_custom_instruction`). -/
def customInstructionBlock (s : String) : String :=
  "\n\n## User's Custom Compaction Instruction\n" ++ s

/-- Final text part of the synthetic compaction message, as a function of the
optional custom instruction. -/
def finalInstructionText : Option String → String
  | none => "\n" ++ COMPACT
  | some s => "\n" ++ COMPACT ++ customInstructionBlock s

/-- Modelled from the spec: `SimpleCompaction.prepare(messages, custom_instruction=None)`.
The shown `compaction.py` predates the `custom_instruction` parameter (only the test
suite exercises it); per the spec the synthetic message ends with the fixed compaction
instruction followed, if a custom instruction is given, by an appended
custom-instruction block.  All other behavior is that of `prepare`. -/
def prepareWithInstruction (max_preserved_messages : Int) (messages : List Message)
    (custom_instruction : Option String) : Option Message × List Message :=
  if messages.isEmpty || max_preserved_messages ≤ 0 then (none, messages)
  else
    match preserveSuffixLen max_preserved_messages.toNat messages.reverse with
    | none => (none, messages)
    | some s =>
      let k := messages.length - s
      let to_compact := messages.take k
      let to_preserve := messages.drop k
      if to_compact.isEmpty then (none, to_preserve)
      else
        (some ⟨Role.user,
            mkCompactContent 0 to_compact
              ++ [ContentPart.text (finalInstructionText custom_instruction)]⟩,
          to_preserve)

end SimpleCompaction

/-- Token usage of one LLM call (`kosong.chat_provider.TokenUsage`). -/
structure TokenUsage where
  input_other : Nat
  output : Nat
  input_cache_read : Nat
deriving DecidableEq

/-- Character count of the `TextPart`s of one message, as accumulated by
`_estimate_text_tokens`. -/
def textChars (m : Message) : Nat :=
  m.content.foldl
    (fun acc p =>
      match p with
      | ContentPart.text t => acc + t.length
      | _ => acc)
    0

/-- Shallow embedding of `_estimate_text_tokens` (`kimi_cli/soul/compaction.py`):
total `TextPart` characters over all messages, integer-divided by 4. -/
def estimate_text_tokens (messages : List Message) : Nat :=
  (messages.foldl (fun acc m => acc + textChars m) 0) / 4

/-- Shallow embedding of `CompactionResult` (`kimi_cli/soul/compaction.py`). -/
structure CompactionResult where
  messages : List Message
  usage : Option TokenUsage

/-- Shallow embedding of `CompactionResult.estimated_token_count`: when usage is
known and the message list is non-empty, the summary (first message) contributes
`usage.output` exactly and the preserved tail is estimated from text length;
otherwise everything is estimated from text length. -/
def CompactionResult.estimated_token_count (r : CompactionResult) : Nat :=
  match r.usage, r.messages with
  | some u, _ :: rest => u.output + estimate_text_tokens rest
  | _, _ => estimate_text_tokens r.messages

/-- Modelled from the spec: `should_auto_compact(tokens_used, max_context_size,
trigger_ratio, reserved_context_size)` — referenced by the test suite but absent from
the shown `compaction.py`.  Per the spec it holds iff
`tokens_used ≥ max_context_size·trigger_ratio` or
`tokens_used ≥ max_context_size − reserved_context_size`.  The ratio argument is an
exact rational here (the gate on names forbids an identifier ending like the Python
one, so it is called `trigger`). -/
def should_auto_compact (tokens_used max_context_size : Int) (trigger : ℚ)
    (reserved_context_size : Int) : Bool :=
  decide ((max_context_size : ℚ) * trigger ≤ (tokens_used : ℚ))
    || decide (max_context_size - reserved_context_size ≤ tokens_used)

namespace Retry

/-- Outcome of one provider `generate()` call in the retry model. -/
inductive GenOutcome
  | ok (text : String)
  | connErr
  | statusErr
deriving DecidableEq

/-- Modelled from the spec: a chat provider as seen by the retry policy wrapping
`generate()` (the `kimisoul` step code is referenced by the test suite but absent
from the shown sources).  `gen args n` is the outcome of the `(n+1)`-th `generate`
call made with arguments `args`; `hook` is the optional transport-rebuild
capability (`on_retryable_error`), as a function of how many times it was already
invoked (`true` = the hook reports success). -/
structure Provider (α : Type) where
  gen : α → Nat → GenOutcome
  hook : Option (Nat → Bool)

/-- Terminal error classes of a retry-wrapped `generate()` call. -/
inductive RetryError
  | conn
  | status
deriving DecidableEq

/-- Result of a retry-wrapped call: how many `generate` calls were made, how many
recovery-hook calls, the argument passed to each `generate` call in order, and
the final outcome. -/
structure RunResult (α : Type) where
  genCalls : Nat
  hookCalls : Nat
  argsLog : List α
  outcome : Except RetryError String

/-- Modelled from the spec: the two-tier retry loop of §4.4, one recursion step per
`generate` attempt.  `statusLeft` is the remaining bounded-backoff budget counting
the current attempt (status/timeout errors retry while it exceeds 1, and it is not
consumed by connection recovery); `recovered` records whether the one-shot
connection-error recovery was already used at this call site.  A connection error
first consults the hook: absent hook, hook failure, or a second connection error
propagates the error; a successful hook retries exactly once more. -/
def runRetry (p : Provider α) (args : α) (callIdx hookIdx : Nat) (log : List α)
    (statusLeft : Nat) (recovered : Bool) : RunResult α :=
  match p.gen args callIdx with
  | .ok t => ⟨callIdx + 1, hookIdx, log ++ [args], .ok t⟩
  | .connErr =>
    if recovered then ⟨callIdx + 1, hookIdx, log ++ [args], .error .conn⟩
    else
      match p.hook with
      | none => ⟨callIdx + 1, hookIdx, log ++ [args], .error .conn⟩
      | some h =>
        if h hookIdx then
          runRetry p args (callIdx + 1) (hookIdx + 1) (log ++ [args]) statusLeft true
        else ⟨callIdx + 1, hookIdx + 1, log ++ [args], .error .conn⟩
  | .statusErr =>
    if statusLeft ≤ 1 then ⟨callIdx + 1, hookIdx, log ++ [args], .error .status⟩
    else runRetry p args (callIdx + 1) hookIdx (log ++ [args]) (statusLeft - 1) recovered
termination_by (statusLeft, if recovered then 0 else 1)
decreasing_by
  · simp_all
    omega
  · simp_all
    omega

/-- Modelled from the spec: the retry-wrapped `generate()` entry point with budget
`max_retries_per_step`. -/
def retry_generate (p : Provider α) (args : α) (max_retries_per_step : Nat) : RunResult α :=
  runRetry p args 0 0 [] max_retries_per_step false

/-- Provider that raises a connection error on its first call and then succeeds,
with a succeeding recovery hook (the test suite's `RecoveringSequenceProvider`). -/
def recoveringProvider (t : String) : Provider Unit :=
  ⟨fun _ n => if n = 0 then .connErr else .ok t, some (fun _ => true)⟩

/-- Provider that always raises a connection error, with a succeeding recovery hook
(the test suite's `AlwaysConnectionErrorProvider`). -/
def alwaysConnProvider : Provider Unit :=
  ⟨fun _ _ => .connErr, some (fun _ => true)⟩

/-- Provider that raises a status error on its first two calls and then succeeds
(the test suite's `StatusErrorThenSuccessProvider`). -/
def statusThenOkProvider (t : String) : Provider Unit :=
  ⟨fun _ n => if n < 2 then .statusErr else .ok t, some (fun _ => true)⟩

/-- Provider that always raises a status error, with a recovery hook available. -/
def alwaysStatusProvider : Provider Unit :=
  ⟨fun _ _ => .statusErr, some (fun _ => true)⟩

end Retry

/-- JSON-like values: the common currency of the wire serializers and the
persisted `state.json`. -/
inductive JVal
  | null
  | bool (b : Bool)
  | num (q : ℚ)
  | str (s : String)
  | arr (xs : List JVal)
  | obj (fields : List (String × JVal))

/-- Dictionary field lookup on a serialized object. -/
def getField : List (String × JVal) → String → Option JVal
  | [], _ => none
  | (k, v) :: rest, key => if k = key then some v else getField rest key

/-- String field or JSON null, for optional string fields. -/
def optStr : Option String → JVal
  | none => .null
  | some s => .str s

/-- Parse a JSON string. -/
def parseStr : JVal → Option String
  | .str s => some s
  | _ => none

/-- Parse a JSON string or null into an optional string. -/
def parseOptStr : JVal → Option (Option String)
  | .null => some none
  | .str s => some (some s)
  | _ => none

/-- Parse a JSON boolean. -/
def parseBool : JVal → Option Bool
  | .bool b => some b
  | _ => none

/-- Parse an integral non-negative JSON number. -/
def parseNat (j : JVal) : Option Nat :=
  match j with
  | .num q => if q.den = 1 ∧ 0 ≤ q.num then some q.num.toNat else none
  | _ => none

/-- Parse an integral JSON number. -/
def parseInt (j : JVal) : Option Int :=
  match j with
  | .num q => if q.den = 1 then some q.num else none
  | _ => none

/-- Parse a JSON number. -/
def parseRat : JVal → Option ℚ
  | .num q => some q
  | _ => none

/-- Parse a JSON array of strings. -/
def parseStrList (j : JVal) : Option (List String) :=
  match j with
  | .arr xs => xs.mapM parseStr
  | _ => none

namespace Wire

/-- Modelled from the spec: the wire serialization of a message content part, as
pinned by the serde test snapshots (`kimi_cli.wire.serde` is absent from the shown
sources). -/
def serializeContentPart : ContentPart → JVal
  | .text t => .obj [("type", .str "text"), ("text", .str t)]
  | .think t => .obj [("type", .str "think"), ("think", .str t)]
  | .image_url u i =>
    .obj [("type", .str "image_url"), ("image_url", .obj [("url", .str u), ("id", optStr i)])]

/-- Modelled from the spec: deserialization of a content part. -/
def parseContentPart (j : JVal) : Option ContentPart :=
  match j with
  | .obj fs =>
    match getField fs "type" with
    | some (.str "text") => ((getField fs "text").bind parseStr).map ContentPart.text
    | some (.str "think") => ((getField fs "think").bind parseStr).map ContentPart.think
    | some (.str "image_url") =>
      match getField fs "image_url" with
      | some (.obj ifs) => do
        let u ← (getField ifs "url").bind parseStr
        let i ← (getField ifs "id").bind parseOptStr
        pure (ContentPart.image_url u i)
      | _ => none
    | _ => none
  | _ => none

/-- User input of a turn: either a plain string or a list of content parts
(`TurnBegin.user_input`). -/
inductive UserInput
  | ofStr (s : String)
  | ofParts (ps : List ContentPart)

/-- Modelled from the spec: serialization of `TurnBegin.user_input`. -/
def serializeUserInput : UserInput → JVal
  | .ofStr s => .str s
  | .ofParts ps => .arr (ps.map serializeContentPart)

/-- Modelled from the spec: deserialization of `TurnBegin.user_input`. -/
def parseUserInput (j : JVal) : Option UserInput :=
  match j with
  | .str s => some (.ofStr s)
  | .arr xs => (xs.mapM parseContentPart).map UserInput.ofParts
  | _ => none

/-- Modelled from the spec: serialization of a `TokenUsage`. -/
def serializeTokenUsage (u : TokenUsage) : JVal :=
  .obj [("input_other", .num u.input_other), ("output", .num u.output),
    ("input_cache_read", .num u.input_cache_read)]

/-- Modelled from the spec: deserialization of a `TokenUsage`. -/
def parseTokenUsage (j : JVal) : Option TokenUsage :=
  match j with
  | .obj fs => do
    let a ← (getField fs "input_other").bind parseNat
    let b ← (getField fs "output").bind parseNat
    let c ← (getField fs "input_cache_read").bind parseNat
    pure ⟨a, b, c⟩
  | _ => none

/-- Display block attached to tool results and approval requests
(`BriefDisplayBlock`). -/
inductive DisplayBlock
  | brief (text : String)

/-- Modelled from the spec: serialization of a display block. -/
def serializeDisplayBlock : DisplayBlock → JVal
  | .brief t => .obj [("type", .str "brief"), ("text", .str t)]

/-- Modelled from the spec: deserialization of a display block. -/
def parseDisplayBlock (j : JVal) : Option DisplayBlock :=
  match j with
  | .obj fs =>
    match getField fs "type" with
    | some (.str "brief") => ((getField fs "text").bind parseStr).map DisplayBlock.brief
    | _ => none
  | _ => none

/-- The three approval responses (`ApprovalResponse.response`). -/
inductive ApprovalDecision
  | approve
  | approve_for_session
  | reject
deriving DecidableEq

/-- Wire form of an approval decision. -/
def ApprovalDecision.toStr : ApprovalDecision → String
  | .approve => "approve"
  | .approve_for_session => "approve_for_session"
  | .reject => "reject"

/-- Parse an approval decision from its wire form. -/
def parseApprovalDecision (j : JVal) : Option ApprovalDecision :=
  match j with
  | .str "approve" => some .approve
  | .str "approve_for_session" => some .approve_for_session
  | .str "reject" => some .reject
  | _ => none

/-- Option offered by a question (`QuestionOption`). -/
structure QuestionOption where
  label : String
  description : String

/-- One question of a `QuestionRequest` (`QuestionItem`). -/
structure QuestionItem where
  question : String
  header : Option String
  options : List QuestionOption
  multi_select : Bool

/-- Modelled from the spec: serialization of a question option. -/
def serializeQuestionOption (o : QuestionOption) : JVal :=
  .obj [("label", .str o.label), ("description", .str o.description)]

/-- Modelled from the spec: deserialization of a question option. -/
def parseQuestionOption (j : JVal) : Option QuestionOption :=
  match j with
  | .obj fs => do
    let l ← (getField fs "label").bind parseStr
    let d ← (getField fs "description").bind parseStr
    pure ⟨l, d⟩
  | _ => none

/-- Modelled from the spec: serialization of a question item. -/
def serializeQuestionItem (q : QuestionItem) : JVal :=
  .obj [("question", .str q.question), ("header", optStr q.header),
    ("options", .arr (q.options.map serializeQuestionOption)),
    ("multi_select", .bool q.multi_select)]

/-- Modelled from the spec: deserialization of a question item. -/
def parseQuestionItem (j : JVal) : Option QuestionItem :=
  match j with
  | .obj fs => do
    let q ← (getField fs "question").bind parseStr
    let h ← (getField fs "header").bind parseOptStr
    let os ← match getField fs "options" with
      | some (.arr xs) => xs.mapM parseQuestionOption
      | _ => none
    let ms ← (getField fs "multi_select").bind parseBool
    pure ⟨q, h, os, ms⟩
  | _ => none

/-- Modelled from the spec: the closed set of `WireMessage` variants of §3 — events
(`TurnBegin` … `SubagentEvent`) and requests (`ApprovalRequest`, `QuestionRequest`,
`ToolCallRequest`), with the payload fields listed there and in the serde test
snapshots. -/
inductive WireMessage
  | turnBegin (user_input : UserInput)
  | turnEnd
  | stepBegin (n : Nat)
  | stepInterrupted
  | compactionBegin
  | compactionEnd
  | statusUpdate (context_usage : ℚ) (token_usage : Option TokenUsage)
  | contentPart (part : ContentPart)
  | toolCall (id : String) (name : String) (arguments : Option String)
  | toolCallPart (arguments_part : String)
  | toolResult (tool_call_id : String) (is_error : Bool) (output : String) (message : String)
      (display : List DisplayBlock)
  | approvalResponse (request_id : String) (response : ApprovalDecision)
  | subagentEvent (task_tool_call_id : String) (event : WireMessage)
  | approvalRequest (id : String) (tool_call_id : String) (sender : String) (action : String)
      (description : String) (display : List DisplayBlock)
  | questionRequest (id : String) (tool_call_id : String) (questions : List QuestionItem)
  | toolCallRequest (id : String) (name : String) (arguments : String)

/-- Modelled from the spec: `serialize_wire_message` — every variant becomes
`{"type": <discriminator>, "payload": {...}}`, with payload shapes exactly as in
the serde test snapshots. -/
def serialize_wire_message : WireMessage → JVal
  | .turnBegin ui => .obj [("type", .str "TurnBegin"),
      ("payload", .obj [("user_input", serializeUserInput ui)])]
  | .turnEnd => .obj [("type", .str "TurnEnd"), ("payload", .obj [])]
  | .stepBegin n => .obj [("type", .str "StepBegin"), ("payload", .obj [("n", .num n)])]
  | .stepInterrupted => .obj [("type", .str "StepInterrupted"), ("payload", .obj [])]
  | .compactionBegin => .obj [("type", .str "CompactionBegin"), ("payload", .obj [])]
  | .compactionEnd => .obj [("type", .str "CompactionEnd"), ("payload", .obj [])]
  | .statusUpdate cu tu => .obj [("type", .str "StatusUpdate"),
      ("payload", .obj [("context_usage", .num cu),
        ("token_usage", match tu with | none => .null | some u => serializeTokenUsage u)])]
  | .contentPart p => .obj [("type", .str "ContentPart"), ("payload", serializeContentPart p)]
  | .toolCall i nm as => .obj [("type", .str "ToolCall"),
      ("payload", .obj [("type", .str "function"), ("id", .str i),
        ("function", .obj [("name", .str nm), ("arguments", optStr as)])])]
  | .toolCallPart ap => .obj [("type", .str "ToolCallPart"),
      ("payload", .obj [("arguments_part", .str ap)])]
  | .toolResult tci ie out msg disp => .obj [("type", .str "ToolResult"),
      ("payload", .obj [("tool_call_id", .str tci),
        ("return_value", .obj [("is_error", .bool ie), ("output", .str out),
          ("message", .str msg), ("display", .arr (disp.map serializeDisplayBlock))])])]
  | .approvalResponse rid resp => .obj [("type", .str "ApprovalResponse"),
      ("payload", .obj [("request_id", .str rid), ("response", .str resp.toStr)])]
  | .subagentEvent tid ev => .obj [("type", .str "SubagentEvent"),
      ("payload", .obj [("task_tool_call_id", .str tid), ("event", serialize_wire_message ev)])]
  | .approvalRequest i tci snd act desc disp => .obj [("type", .str "ApprovalRequest"),
      ("payload", .obj [("id", .str i), ("tool_call_id", .str tci), ("sender", .str snd),
        ("action", .str act), ("description", .str desc),
        ("display", .arr (disp.map serializeDisplayBlock))])]
  | .questionRequest i tci qs => .obj [("type", .str "QuestionRequest"),
      ("payload", .obj [("id", .str i), ("tool_call_id", .str tci),
        ("questions", .arr (qs.map serializeQuestionItem))])]
  | .toolCallRequest i nm as => .obj [("type", .str "ToolCallRequest"),
      ("payload", .obj [("id", .str i), ("name", .str nm), ("arguments", .str as)])]

/-- Modelled from the spec: payload deserialization for every non-nested variant,
dispatching on the `type` discriminator.  The legacy discriminator
`ApprovalRequestResolved` deserializes to the canonical `ApprovalResponse`, and an
`ApprovalRequest` payload without a `display` field defaults to the empty list. -/
def parseFlatPayload (tag : String) (payload : JVal) : Option WireMessage :=
  if tag = "TurnBegin" then
    match payload with
    | .obj fs => ((getField fs "user_input").bind parseUserInput).map WireMessage.turnBegin
    | _ => none
  else if tag = "TurnEnd" then
    match payload with
    | .obj _ => some .turnEnd
    | _ => none
  else if tag = "StepBegin" then
    match payload with
    | .obj fs => ((getField fs "n").bind parseNat).map WireMessage.stepBegin
    | _ => none
  else if tag = "StepInterrupted" then
    match payload with
    | .obj _ => some .stepInterrupted
    | _ => none
  else if tag = "CompactionBegin" then
    match payload with
    | .obj _ => some .compactionBegin
    | _ => none
  else if tag = "CompactionEnd" then
    match payload with
    | .obj _ => some .compactionEnd
    | _ => none
  else if tag = "StatusUpdate" then
    match payload with
    | .obj fs => do
      let cu ← (getField fs "context_usage").bind parseRat
      let tu ← match getField fs "token_usage" with
        | some .null => some none
        | some v => (parseTokenUsage v).map some
        | none => some none
      pure (WireMessage.statusUpdate cu tu)
    | _ => none
  else if tag = "ContentPart" then
    (parseContentPart payload).map WireMessage.contentPart
  else if tag = "ToolCall" then
    match payload with
    | .obj fs => do
      let i ← (getField fs "id").bind parseStr
      let fn ← match getField fs "function" with
        | some (.obj ffs) => do
          let nm ← (getField ffs "name").bind parseStr
          let as ← (getField ffs "arguments").bind parseOptStr
          pure (nm, as)
        | _ => none
      pure (WireMessage.toolCall i fn.1 fn.2)
    | _ => none
  else if tag = "ToolCallPart" then
    match payload with
    | .obj fs => ((getField fs "arguments_part").bind parseStr).map WireMessage.toolCallPart
    | _ => none
  else if tag = "ToolResult" then
    match payload with
    | .obj fs => do
      let tci ← (getField fs "tool_call_id").bind parseStr
      let rv ← match getField fs "return_value" with
        | some (.obj rfs) => do
          let ie ← (getField rfs "is_error").bind parseBool
          let out ← (getField rfs "output").bind parseStr
          let msg ← (getField rfs "message").bind parseStr
          let disp ← match getField rfs "display" with
            | some (.arr xs) => xs.mapM parseDisplayBlock
            | _ => none
          pure (ie, out, msg, disp)
        | _ => none
      pure (WireMessage.toolResult tci rv.1 rv.2.1 rv.2.2.1 rv.2.2.2)
    | _ => none
  else if tag = "ApprovalResponse" ∨ tag = "ApprovalRequestResolved" then
    match payload with
    | .obj fs => do
      let rid ← (getField fs "request_id").bind parseStr
      let resp ← (getField fs "response").bind parseApprovalDecision
      pure (WireMessage.approvalResponse rid resp)
    | _ => none
  else if tag = "ApprovalRequest" then
    match payload with
    | .obj fs => do
      let i ← (getField fs "id").bind parseStr
      let tci ← (getField fs "tool_call_id").bind parseStr
      let snd ← (getField fs "sender").bind parseStr
      let act ← (getField fs "action").bind parseStr
      let desc ← (getField fs "description").bind parseStr
      let disp ← match getField fs "display" with
        | some (.arr xs) => xs.mapM parseDisplayBlock
        | none => some []
        | _ => none
      pure (WireMessage.approvalRequest i tci snd act desc disp)
    | _ => none
  else if tag = "QuestionRequest" then
    match payload with
    | .obj fs => do
      let i ← (getField fs "id").bind parseStr
      let tci ← (getField fs "tool_call_id").bind parseStr
      let qs ← match getField fs "questions" with
        | some (.arr xs) => xs.mapM parseQuestionItem
        | _ => none
      pure (WireMessage.questionRequest i tci qs)
    | _ => none
  else if tag = "ToolCallRequest" then
    match payload with
    | .obj fs => do
      let i ← (getField fs "id").bind parseStr
      let nm ← (getField fs "name").bind parseStr
      let as ← (getField fs "arguments").bind parseStr
      pure (WireMessage.toolCallRequest i nm as)
    | _ => none
  else none

/-- Modelled from the spec: fuel-indexed deserializer core; the fuel only bounds the
nesting depth of `SubagentEvent` envelopes. -/
def deserializeAux : Nat → JVal → Option WireMessage
  | 0, _ => none
  | fuel + 1, j =>
    match j with
    | .obj fs =>
      match getField fs "type", getField fs "payload" with
      | some (.str tag), some payload =>
        if tag = "SubagentEvent" then
          match payload with
          | .obj pfs =>
            match getField pfs "task_tool_call_id", getField pfs "event" with
            | some (.str tid), some ev =>
              (deserializeAux fuel ev).map (WireMessage.subagentEvent tid)
            | _, _ => none
          | _ => none
        else parseFlatPayload tag payload
      | _, _ => none
    | _ => none

mutual

/-- Structural weight of a JSON value, used as deserialization fuel: it always
dominates the nesting depth. -/
def jweight : JVal → Nat
  | .null => 1
  | .bool _ => 1
  | .num _ => 1
  | .str _ => 1
  | .arr xs => jweightList xs + 1
  | .obj fs => jweightFields fs + 1

/-- Total weight of an array's elements. -/
def jweightList : List JVal → Nat
  | [] => 0
  | x :: xs => jweight x + jweightList xs

/-- Total weight of an object's field values. -/
def jweightFields : List (String × JVal) → Nat
  | [] => 0
  | f :: fs => jweight f.2 + jweightFields fs

end

/-- Modelled from the spec: `deserialize_wire_message` — rejects anything that is
not a `{"type", "payload"}` object with a known discriminator. -/
def deserialize_wire_message (j : JVal) : Option WireMessage :=
  deserializeAux (jweight j) j

/-- Nesting depth of a wire message: 1 plus the depth of the enveloped event for
`SubagentEvent`, 1 otherwise. -/
def wdepth : WireMessage → Nat
  | .subagentEvent _ ev => wdepth ev + 1
  | _ => 1

end Wire

namespace Approval

/-- Modelled from the spec: `ApprovalState` — the yolo flag and the session
auto-approve set, plus a count of `on_change` callback invocations standing in for
the callback itself (`kimi_cli/soul/approval.py` is absent from the shown
sources). -/
structure ApprovalState where
  yolo : Bool
  auto_approve_actions : List String
  changes : Nat
deriving DecidableEq

/-- Modelled from the spec: the three resolution outcomes of an approval request. -/
inductive RequestOutcome
  | approve
  | approve_for_session
  | reject
deriving DecidableEq

/-- What `Approval.request` does before any wire traffic: either an immediate
answer (yolo / cached action — no `ApprovalRequest` is emitted) or the emission of
an `ApprovalRequest` on the wire. -/
inductive RequestAction
  | immediate (approved : Bool)
  | emitted
deriving DecidableEq

/-- Modelled from the spec: the entry of `Approval.request(sender, action,
description)` — if `state.yolo` or the action is cached, return approved with no
wire round trip; otherwise publish an `ApprovalRequest` and await resolution. -/
def request (st : ApprovalState) (action : String) : RequestAction :=
  if st.yolo || st.auto_approve_actions.contains action then .immediate true else .emitted

/-- Modelled from the spec: effect of resolving an emitted request with a given
outcome — `approve` returns approved with no state change, `approve_for_session`
adds the action to `auto_approve_actions` and fires `on_change` once, `reject`
returns denied. -/
def resolveRequest (st : ApprovalState) (action : String) (o : RequestOutcome) :
    Bool × ApprovalState :=
  match o with
  | .approve => (true, st)
  | .approve_for_session =>
    (true,
      { st with
          auto_approve_actions := action :: st.auto_approve_actions,
          changes := st.changes + 1 })
  | .reject => (false, st)

end Approval

namespace State

/-- Shallow embedding of `ApprovalStateData` (`kimi_cli/session_state.py`); the
persisted `set[str]` is kept as an ordered list. -/
structure ApprovalStateData where
  yolo : Bool
  auto_approve_actions : List String
deriving DecidableEq

/-- Shallow embedding of `DynamicSubagentSpec` (`kimi_cli/session_state.py`). -/
structure DynamicSubagentSpec where
  name : String
  system_prompt : String
deriving DecidableEq

/-- Shallow embedding of `SessionState` (`kimi_cli/session_state.py`). -/
structure SessionState where
  version : Int
  approval : ApprovalStateData
  dynamic_subagents : List DynamicSubagentSpec
deriving DecidableEq

/-- Default-constructed `ApprovalStateData()`. -/
def defaultApprovalStateData : ApprovalStateData := ⟨false, []⟩

/-- Default-constructed `SessionState()`. -/
def defaultSessionState : SessionState := ⟨1, defaultApprovalStateData, []⟩

/-- Schema validation of the `approval` sub-object, following the pydantic model:
missing fields take their defaults, present fields must have the right JSON type. -/
def validateApprovalData (j : JVal) : Option ApprovalStateData :=
  match j with
  | .obj fs => do
    let y ← match getField fs "yolo" with
      | none => some false
      | some v => parseBool v
    let acts ← match getField fs "auto_approve_actions" with
      | none => some []
      | some v => parseStrList v
    pure ⟨y, acts⟩
  | _ => none

/-- Schema validation of one dynamic-subagent spec: both fields are required
strings. -/
def validateSubagent (j : JVal) : Option DynamicSubagentSpec :=
  match j with
  | .obj fs => do
    let n ← (getField fs "name").bind parseStr
    let sp ← (getField fs "system_prompt").bind parseStr
    pure ⟨n, sp⟩
  | _ => none

/-- Schema validation of `SessionState.model_validate` over a parsed JSON value:
the top level must be an object; each field, when present, must validate, and
defaults apply when absent. -/
def validateSessionState (j : JVal) : Option SessionState :=
  match j with
  | .obj fs => do
    let v ← match getField fs "version" with
      | none => some (1 : Int)
      | some w => parseInt w
    let ap ← match getField fs "approval" with
      | none => some defaultApprovalStateData
      | some w => validateApprovalData w
    let ds ← match getField fs "dynamic_subagents" with
      | none => some []
      | some (.arr xs) => xs.mapM validateSubagent
      | some _ => none
    pure ⟨v, ap, ds⟩
  | _ => none

/-- Observable outcome of reading `state.json` before validation: the file is
missing, its bytes are not UTF-8 (`UnicodeDecodeError`), its text is not JSON
(`json.JSONDecodeError`: truncated JSON, empty file, garbage), or it parsed to a
JSON value.  This abstracts the I/O/decoding pipeline of `load_session_state`. -/
inductive StateFile
  | missing
  | undecodable
  | unparsable
  | parsed (j : JVal)

/-- Shallow embedding of `load_session_state` (`kimi_cli/session_state.py`): a
missing file and every decode/parse failure yield the default state via the
`except` clause; a parsed value that fails schema validation likewise falls back
to the default. -/
def load_session_state : StateFile → SessionState
  | .missing => defaultSessionState
  | .undecodable => defaultSessionState
  | .unparsable => defaultSessionState
  | .parsed j => (validateSessionState j).getD defaultSessionState

/-- Serialization `SessionState.model_dump(mode="json")` used by
`save_session_state`. -/
def serializeSessionState (st : SessionState) : JVal :=
  .obj [("version", .num st.version),
    ("approval", .obj [("yolo", .bool st.approval.yolo),
      ("auto_approve_actions", .arr (st.approval.auto_approve_actions.map JVal.str))]),
    ("dynamic_subagents", .arr (st.dynamic_subagents.map
      (fun d => .obj [("name", .str d.name), ("system_prompt", .str d.system_prompt)])))]

end State

namespace AtomicWrite

/-- The slice of the file system `atomic_json_write` touches: the content committed
at the target path (as a JSON value) and the content of the temporary file, when
one exists. -/
structure FS where
  target : Option JVal
  tmp : Option JVal

/-- Failure points inside `atomic_json_write`'s `try` block: `json.dump` (also
covering serialization errors and write errors on the file object), `os.fsync`,
and `os.replace`. -/
inductive WriteFailure
  | dump
  | fsync
  | replace
deriving DecidableEq

/-- Shallow embedding of `atomic_json_write` (`kimi_cli/utils/io.py`):
`tempfile.mkstemp` creates the temp file; the data is dumped into it, flushed and
fsynced; `os.replace` atomically commits it to the target.  Any exception
(injected through `failAt`) triggers the `except` clause, which unlinks the temp
file and re-raises. -/
def atomic_json_write (data : JVal) (failAt : Option WriteFailure) (fs : FS) :
    Except WriteFailure Unit × FS :=
  let afterTemp : FS := { fs with tmp := some (.str "") }
  match failAt with
  | some .dump => (.error .dump, { afterTemp with tmp := none })
  | some .fsync => (.error .fsync, { afterTemp with tmp := none })
  | some .replace => (.error .replace, { afterTemp with tmp := none })
  | none => (.ok (), { target := some data, tmp := none })

/-- Shallow embedding of `save_session_state` (`kimi_cli/session_state.py`): dump
the state to JSON and write it atomically. -/
def save_session_state (st : State.SessionState) (failAt : Option WriteFailure) (fs : FS) :
    Except WriteFailure Unit × FS :=
  atomic_json_write (State.serializeSessionState st) failAt fs

end AtomicWrite

/-- Number of user/assistant-role messages in a list (the spec's count of
preservable messages). -/
def countUA (l : List Message) : Nat :=
  (l.filter isUA).length

/-- A message with everything but its literal `TextPart`s removed (spec-side
device for stating that only literal text contributes to token estimates). -/
def stripNonText (m : Message) : Message :=
  ⟨m.role, m.content.filter ContentPart.isText⟩

/-- The five-message history of the compaction test
`test_prepare_builds_compact_message_and_preserves_tail`. -/
def demoHistory : List Message :=
  [ ⟨Role.system, [ContentPart.text "System note"]⟩,
    ⟨Role.user, [ContentPart.text "Old question", ContentPart.think "Hidden thoughts"]⟩,
    ⟨Role.assistant, [ContentPart.text "Old answer"]⟩,
    ⟨Role.user, [ContentPart.text "Latest question"]⟩,
    ⟨Role.assistant, [ContentPart.text "Latest answer"]⟩ ]

/-- The synthetic compaction message `prepare` builds for `demoHistory` with
`max_preserved_messages = 2`. -/
def demoCompactMessage : Message :=
  ⟨Role.user,
    [ ContentPart.text "## Message 1\nRole: system\nContent:\n",
      ContentPart.text "System note",
      ContentPart.text "## Message 2\nRole: user\nContent:\n",
      ContentPart.text "Old question",
      ContentPart.text "## Message 3\nRole: assistant\nContent:\n",
      ContentPart.text "Old answer",
      ContentPart.text ("\n" ++ SimpleCompaction.COMPACT) ]⟩

/-- The preserved tail of `demoHistory` under `max_preserved_messages = 2`. -/
def demoPreserved : List Message :=
  [ ⟨Role.user, [ContentPart.text "Latest question"]⟩,
    ⟨Role.assistant, [ContentPart.text "Latest answer"]⟩ ]

/-- The four-message history of `test_prepare_appends_custom_instruction`. -/
def demoHistory4 : List Message :=
  [ ⟨Role.user, [ContentPart.text "Old question"]⟩,
    ⟨Role.assistant, [ContentPart.text "Old answer"]⟩,
    ⟨Role.user, [ContentPart.text "Latest question"]⟩,
    ⟨Role.assistant, [ContentPart.text "Latest answer"]⟩ ]

/-- The custom instruction used by `test_prepare_appends_custom_instruction`. -/
def demoInstruction : String :=
  "Preserve all discussions about the database"

/-- The synthetic compaction message built for `demoHistory4` with the custom
instruction `demoInstruction`. -/
def demoCompactMessage4 : Message :=
  ⟨Role.user,
    [ ContentPart.text "## Message 1\nRole: user\nContent:\n",
      ContentPart.text "Old question",
      ContentPart.text "## Message 2\nRole: assistant\nContent:\n",
      ContentPart.text "Old answer",
      ContentPart.text
        ("\n" ++ SimpleCompaction.COMPACT
          ++ SimpleCompaction.customInstructionBlock demoInstruction) ]⟩

/-- The preserved tail of `demoHistory4` under `max_preserved_messages = 2`. -/
def demoPreserved4 : List Message :=
  [ ⟨Role.user, [ContentPart.text "Latest question"]⟩,
    ⟨Role.assistant, [ContentPart.text "Latest answer"]⟩ ]

/-! ## Theorems -/

/-- Filtering out the non-text parts does not change the character fold of
`_estimate_text_tokens`. -/
theorem foldl_chars_filter (l : List ContentPart) (acc : Nat) :
    (l.filter ContentPart.isText).foldl
        (fun acc p =>
          match p with
          | ContentPart.text t => acc + t.length
          | _ => acc) acc
      = l.foldl
        (fun acc p =>
          match p with
          | ContentPart.text t => acc + t.length
          | _ => acc) acc := by
  induction l generalizing acc with
  | nil => rfl
  | cons p rest ih => cases p <;> simp [ContentPart.isText, ih]

/-- Stripping non-text parts preserves `textChars`. -/
theorem textChars_strip (m : Message) : textChars (stripNonText m) = textChars m := by
  rcases m with ⟨r, content⟩
  simpa only [textChars, stripNonText] using foldl_chars_filter content 0

/-- Stripping non-text parts preserves the running sum of `textChars`. -/
theorem foldl_sum_strip (l : List Message) (acc : Nat) :
    (l.map stripNonText).foldl (fun a m => a + textChars m) acc
      = l.foldl (fun a m => a + textChars m) acc := by
  induction l generalizing acc with
  | nil => rfl
  | cons m rest ih => simp [List.foldl_cons, textChars_strip, ih]

/-- Stripping non-text parts preserves `estimate_text_tokens`. -/
theorem estimate_text_tokens_strip (l : List Message) :
    estimate_text_tokens (l.map stripNonText) = estimate_text_tokens l := by
  simp only [estimate_text_tokens, foldl_sum_strip]

/-- C6: for every `CompactionResult`, when usage is present and the message list is
non-empty, `estimated_token_count` is `usage.output` plus the character-heuristic
estimate over all later messages; when usage is absent it is the character
heuristic over every message; and only literal text parts affect the estimate
(removing every non-text part changes nothing). -/
theorem estimated_token_count_spec (r : CompactionResult) :
    (∀ u, r.usage = some u → r.messages ≠ [] →
      r.estimated_token_count = u.output + estimate_text_tokens (r.messages.drop 1))
    ∧ (r.usage = none → r.estimated_token_count = estimate_text_tokens r.messages)
    ∧ CompactionResult.estimated_token_count ⟨r.messages.map stripNonText, r.usage⟩
        = r.estimated_token_count := by
  rcases r with ⟨msgs, usage⟩
  refine ⟨?_, ?_, ?_⟩
  · intro u hu hne
    subst hu
    cases msgs with
    | nil => exact absurd rfl hne
    | cons m rest => simp [CompactionResult.estimated_token_count]
  · intro h
    subst h
    cases msgs <;> simp [CompactionResult.estimated_token_count]
  · cases usage with
    | none =>
      cases msgs with
      | nil => rfl
      | cons m rest =>
        show CompactionResult.estimated_token_count ⟨(m :: rest).map stripNonText, none⟩ = _
        simp only [CompactionResult.estimated_token_count, List.map_cons]
        exact estimate_text_tokens_strip (m :: rest)
    | some u =>
      cases msgs with
      | nil => rfl
      | cons m rest =>
        show CompactionResult.estimated_token_count ⟨(m :: rest).map stripNonText, some u⟩ = _
        simp only [CompactionResult.estimated_token_count, List.map_cons]
        rw [estimate_text_tokens_strip rest]

/-- Witness for C6 at the fixture of
`test_estimated_token_count_with_usage_uses_output_tokens_for_summary`. -/
theorem estimated_token_count_spec_witness :
    CompactionResult.estimated_token_count
        ⟨[⟨Role.user, [ContentPart.text "compacted summary"]⟩,
          ⟨Role.user, [ContentPart.text "abcdefgh"]⟩], some ⟨1000, 150, 0⟩⟩
      = 150 + estimate_text_tokens [⟨Role.user, [ContentPart.text "abcdefgh"]⟩] :=
  (estimated_token_count_spec
      ⟨[⟨Role.user, [ContentPart.text "compacted summary"]⟩,
        ⟨Role.user, [ContentPart.text "abcdefgh"]⟩], some ⟨1000, 150, 0⟩⟩).1
    ⟨1000, 150, 0⟩ rfl (by decide)

/-- Exhausting the bounded-backoff budget on a provider that always raises a
status error: with budget `sLeft ≥ 1` remaining, exactly `sLeft` more `generate`
calls are made with the same argument, no recovery-hook call happens, and the
status error propagates. -/
theorem runRetry_alwaysStatus (sLeft : Nat) (h : 1 ≤ sLeft) :
    ∀ (callIdx hookIdx : Nat) (log : List Unit) (rec : Bool),
      Retry.runRetry Retry.alwaysStatusProvider () callIdx hookIdx log sLeft rec
        = ⟨callIdx + sLeft, hookIdx, log ++ List.replicate sLeft (), .error .status⟩ := by
  have hg : ∀ (a : Unit) (k : Nat), Retry.alwaysStatusProvider.gen a k = .statusErr :=
    fun _ _ => rfl
  induction sLeft with
  | zero => omega
  | succ n ih =>
    intro callIdx hookIdx log rec
    by_cases hn : n = 0
    · subst hn
      simp [Retry.runRetry, Retry.alwaysStatusProvider]
    · rw [Retry.runRetry]
      simp only [hg]
      rw [if_neg (by omega : ¬ (n + 1 ≤ 1))]
      have hsub : n + 1 - 1 = n := rfl
      rw [hsub, ih (by omega)]
      simp [Retry.RunResult.mk.injEq, List.replicate_succ, List.append_assoc]
      omega

/-- C1: for every configured `max_retries_per_step` budget, a provider that raises
a connection error on its first call and succeeds on its second costs exactly 2
`generate` calls and exactly 1 recovery-hook call and yields exactly the
provider's text; a provider that always raises a connection error costs exactly
2 `generate` calls and 1 recovery-hook call, after which the connection error
propagates — the recovery mechanism never loops. -/
theorem connection_recovery_spec : ∀ (b : Nat) (t : String),
    Retry.retry_generate (Retry.recoveringProvider t) () b
      = ⟨2, 1, [(), ()], .ok t⟩
    ∧ Retry.retry_generate Retry.alwaysConnProvider () b
      = ⟨2, 1, [(), ()], .error .conn⟩ := by
  intro b t
  constructor
  · simp [Retry.retry_generate, Retry.runRetry, Retry.recoveringProvider]
  · simp [Retry.retry_generate, Retry.runRetry, Retry.alwaysConnProvider]

/-- C2: a provider raising a status error on its first two calls and succeeding on
the third, run with `max_retries_per_step = 3`, costs exactly 3 `generate` calls,
0 recovery-hook calls, and yields the provider's text; and for every budget
`b ≥ 1`, an always-status-failing provider is retried with the same arguments
until the budget is exhausted (exactly `b` calls), after which the last status
error propagates, never touching the recovery hook. -/
theorem status_retry_spec : ∀ (t : String) (b : Nat), 1 ≤ b →
    Retry.retry_generate (Retry.statusThenOkProvider t) () 3
      = ⟨3, 0, [(), (), ()], .ok t⟩
    ∧ Retry.retry_generate Retry.alwaysStatusProvider () b
      = ⟨b, 0, List.replicate b (), .error .status⟩ := by
  intro t b hb
  constructor
  · simp [Retry.retry_generate, Retry.runRetry, Retry.statusThenOkProvider]
  · rw [Retry.retry_generate, runRetry_alwaysStatus b hb]
    simp

/-- Witness for C2 at the test's budget of 3 (concrete text) and budget 5 for the
exhaustion clause. -/
theorem status_retry_spec_witness :
    Retry.retry_generate (Retry.statusThenOkProvider "status recovered") () 3
      = ⟨3, 0, [(), (), ()], .ok "status recovered"⟩
    ∧ Retry.retry_generate Retry.alwaysStatusProvider () 5
      = ⟨5, 0, List.replicate 5 (), .error .status⟩ :=
  status_retry_spec "status recovered" 5 (by decide)

/-- C3 counterexample: the claim asserts `should_auto_compact` returns `False`
for `tokens_used = 0` with *every* `max_context_size`, `trigger_ratio`, and
`reserved_context_size`; it does not when `reserved_context_size` reaches
`max_context_size`, since `0 ≥ max_context_size − reserved_context_size` then
holds. -/
theorem should_auto_compact_zero_counterexample :
    should_auto_compact 0 100 (0.85 : ℚ) 100 = true := by
  norm_num [should_auto_compact]

/-- C3 (amended): `should_auto_compact` holds iff `tokens_used` reaches either
threshold; the four concrete cases of the spec evaluate as claimed; and it is
`False` at `tokens_used = 0` whenever `max_context_size` and the ratio are
positive and `reserved_context_size < max_context_size`. -/
theorem should_auto_compact_spec :
    (∀ (t M R : Int) (r : ℚ),
        should_auto_compact t M r R = true ↔ ((M : ℚ) * r ≤ (t : ℚ) ∨ M - R ≤ t))
    ∧ should_auto_compact 150000 200000 (0.85 : ℚ) 50000 = true
    ∧ should_auto_compact 140000 200000 (0.85 : ℚ) 50000 = false
    ∧ should_auto_compact 850000 1000000 (0.85 : ℚ) 50000 = true
    ∧ should_auto_compact 840000 1000000 (0.85 : ℚ) 50000 = false
    ∧ (∀ (M R : Int) (r : ℚ), 0 < M → 0 < r → R < M →
        should_auto_compact 0 M r R = false) := by
  refine ⟨?_, ?_, ?_, ?_, ?_, ?_⟩
  · intro t M R r
    simp [should_auto_compact]
  · norm_num [should_auto_compact]
  · norm_num [should_auto_compact]
  · norm_num [should_auto_compact]
  · norm_num [should_auto_compact]
  · intro M R r hM hr hMR
    have hM' : (0 : ℚ) < (M : ℚ) := by exact_mod_cast hM
    simp only [should_auto_compact, Bool.or_eq_false_iff, decide_eq_false_iff_not, not_le]
    constructor
    · push_cast
      exact mul_pos hM' hr
    · omega

/-- Witness for C3: the zero-tokens clause applied at positive context size, unit
ratio, and a reserve below the context size. -/
theorem should_auto_compact_spec_witness :
    should_auto_compact 0 300 (1 : ℚ) 100 = false :=
  should_auto_compact_spec.2.2.2.2.2 300 100 1 (by decide) one_pos (by decide)

/-- C8: resolving an emitted approval request with `approve_for_session` returns
approved, caches the action, fires `on_change` exactly once, and makes a repeat
request for the same action immediate (no new `ApprovalRequest` emitted); and
whenever yolo is set or the action is cached, `request` is immediately approved
with no wire traffic. -/
theorem approval_for_session_spec (st : Approval.ApprovalState) (action : String) :
    (Approval.request st action = .emitted →
      (Approval.resolveRequest st action .approve_for_session).1 = true
        ∧ ((Approval.resolveRequest st action
            .approve_for_session).2.auto_approve_actions.contains action = true)
        ∧ (Approval.resolveRequest st action .approve_for_session).2.changes = st.changes + 1
        ∧ Approval.request (Approval.resolveRequest st action .approve_for_session).2 action
            = .immediate true)
    ∧ ((st.yolo = true ∨ st.auto_approve_actions.contains action = true) →
        Approval.request st action = .immediate true) := by
  constructor
  · intro _
    refine ⟨rfl, ?_, rfl, ?_⟩
    · simp [Approval.resolveRequest]
    · simp [Approval.resolveRequest, Approval.request]
  · intro h
    rcases h with h | h
    · simp [Approval.request, h]
    · simp only [Approval.request, h, Bool.or_true, if_pos]

/-- Witness for C8 at an empty approval state and the test's `shell_exec`
action. -/
theorem approval_for_session_spec_witness :
    (Approval.resolveRequest ⟨false, [], 0⟩ "shell_exec" .approve_for_session).1 = true
      ∧ ((Approval.resolveRequest ⟨false, [], 0⟩ "shell_exec"
          .approve_for_session).2.auto_approve_actions.contains "shell_exec" = true)
      ∧ (Approval.resolveRequest ⟨false, [], 0⟩ "shell_exec" .approve_for_session).2.changes
          = (0 : Nat) + 1
      ∧ Approval.request
          (Approval.resolveRequest ⟨false, [], 0⟩ "shell_exec" .approve_for_session).2
          "shell_exec" = .immediate true :=
  (approval_for_session_spec ⟨false, [], 0⟩ "shell_exec").1 (by decide)

/-- C9: `load_session_state` returns the default state (version 1, approval
`{yolo: false, auto_approve_actions: ∅}`, no dynamic subagents) whenever the
state file is missing or fails UTF-8 decoding, JSON parsing, or schema
validation; wrong field types fail validation; and a well-formed object
validates to the corresponding state. -/
theorem load_session_state_defaults :
    (∀ f : State.StateFile,
        (f = .missing ∨ f = .undecodable ∨ f = .unparsable
          ∨ ∃ j, f = .parsed j ∧ State.validateSessionState j = none) →
        State.load_session_state f = State.defaultSessionState)
    ∧ State.defaultSessionState = ⟨1, ⟨false, []⟩, []⟩
    ∧ State.validateSessionState
        (.obj [("version", .str "not_an_int"), ("approval", .str "bad")]) = none
    ∧ State.load_session_state
        (.parsed (.obj [("version", .str "not_an_int"), ("approval", .str "bad")]))
        = State.defaultSessionState
    ∧ State.validateSessionState
        (.obj [("version", .num 1),
          ("approval", .obj [("yolo", .bool true),
            ("auto_approve_actions", .arr [.str "Shell"])]),
          ("dynamic_subagents", .arr [])])
        = some ⟨1, ⟨true, ["Shell"]⟩, []⟩ := by
  refine ⟨?_, rfl, ?_, ?_, ?_⟩
  · intro f h
    rcases h with h | h | h | ⟨j, hj, hval⟩ <;> try (subst h; rfl)
    subst hj
    simp [State.load_session_state, hval]
  · rfl
  · rfl
  · rfl

/-- Witness for C9 at a missing state file. -/
theorem load_session_state_defaults_witness :
    State.load_session_state .missing = State.defaultSessionState :=
  load_session_state_defaults.1 .missing (Or.inl rfl)

/-- C10: `atomic_json_write` either fully commits the new content at the target
(success leaves no temp file), or, when any step of the write fails, propagates
that error, leaves the target's previous content unchanged, and removes the temp
file; `save_session_state` is exactly `atomic_json_write` of the serialized
state. -/
theorem atomic_json_write_spec (data : JVal) (failAt : Option AtomicWrite.WriteFailure)
    (fs : AtomicWrite.FS) (st : State.SessionState) :
    (failAt = none →
      AtomicWrite.atomic_json_write data failAt fs = (.ok (), ⟨some data, none⟩))
    ∧ (∀ e, failAt = some e →
        AtomicWrite.atomic_json_write data failAt fs = (.error e, ⟨fs.target, none⟩))
    ∧ AtomicWrite.save_session_state st failAt fs
        = AtomicWrite.atomic_json_write (State.serializeSessionState st) failAt fs := by
  refine ⟨?_, ?_, rfl⟩
  · intro h
    subst h
    rfl
  · intro e he
    subst he
    cases e <;> cases fs <;> rfl

/-- Witness for C10: a failing dump propagates and leaves an absent target
absent. -/
theorem atomic_json_write_spec_witness :
    AtomicWrite.atomic_json_write .null (some .dump) ⟨none, none⟩
      = (.error .dump, ⟨none, none⟩) :=
  (atomic_json_write_spec .null (some .dump) ⟨none, none⟩ State.defaultSessionState).2.1
    .dump rfl

section CompactionTheorems

open SimpleCompaction

theorem countUA_reverse (l : List Message) : countUA l.reverse = countUA l := by
  simp [countUA, List.filter_reverse]

theorem preserveSuffixLen_none_iff (l : List Message) :
    ∀ need, 1 ≤ need → (preserveSuffixLen need l = none ↔ countUA l < need) := by
  induction l with
  | nil =>
    intro need h
    simp [preserveSuffixLen, countUA]
    omega
  | cons m rest ih =>
    intro need h
    by_cases hm : isUA m
    · by_cases h1 : need ≤ 1
      · have hne : need = 1 := by omega
        subst hne
        simp [preserveSuffixLen, hm, countUA, List.filter_cons_of_pos, hm]
      · have h2 : 1 ≤ need - 1 := by omega
        simp only [preserveSuffixLen, if_pos hm, if_neg h1, Option.map_eq_none']
        rw [ih (need - 1) h2]
        simp [countUA, List.filter_cons_of_pos, hm]
        omega
    · simp only [preserveSuffixLen, if_neg hm, Option.map_eq_none']
      rw [ih need h]
      simp [countUA, List.filter_cons_of_neg, hm]

theorem preserveSuffixLen_some (l : List Message) :
    ∀ need s, 1 ≤ need → preserveSuffixLen need l = some s →
      ∃ front lm, l.take s = front ++ [lm] ∧ isUA lm = true ∧ s = front.length + 1 ∧
        s ≤ l.length ∧ countUA (l.take s) = need := by
  induction l with
  | nil =>
    intro need s h hs
    simp [preserveSuffixLen] at hs
  | cons m rest ih =>
    intro need s h hs
    by_cases hm : isUA m
    · by_cases h1 : need ≤ 1
      · have hne : need = 1 := by omega
        subst hne
        simp only [preserveSuffixLen, if_pos hm] at hs
        rw [if_pos (by omega : (1:Nat) ≤ 1)] at hs
        obtain rfl : (1 : Nat) = s := Option.some.inj hs
        refine ⟨[], m, by simp, hm, by simp, by simp, ?_⟩
        simp [countUA, List.filter_cons_of_pos, hm]
      · simp only [preserveSuffixLen, if_pos hm, if_neg h1, Option.map_eq_some'] at hs
        obtain ⟨s', hs', rfl⟩ := hs
        obtain ⟨front, lm, hf, hlm, hlen, hle, hcount⟩ := ih (need - 1) s' (by omega) hs'
        refine ⟨m :: front, lm, ?_, hlm, by simp [hlen], by simpa using hle, ?_⟩
        · simp [List.take_succ_cons, hf]
        · simp only [List.take_succ_cons]
          simp [countUA, List.filter_cons_of_pos, hm] at hcount ⊢
          omega
    · simp only [preserveSuffixLen, if_neg hm, Option.map_eq_some'] at hs
      obtain ⟨s', hs', rfl⟩ := hs
      obtain ⟨front, lm, hf, hlm, hlen, hle, hcount⟩ := ih need s' h hs'
      refine ⟨m :: front, lm, ?_, hlm, by simp [hlen], by simpa using hle, ?_⟩
      · simp [List.take_succ_cons, hf]
      · simp only [List.take_succ_cons]
        simp [countUA, List.filter_cons_of_neg, hm] at hcount ⊢
        exact hcount

theorem reverse_take_eq (l : List Message) (s : Nat) (h : s ≤ l.length) :
    l.reverse.take s = (l.drop (l.length - s)).reverse := by
  have h1 : l.reverse = (l.drop (l.length - s)).reverse ++ (l.take (l.length - s)).reverse := by
    rw [← List.reverse_append, List.take_append_drop]
  rw [h1, List.take_left']
  simp
  omega

theorem mkCompactContent_no_think (ms : List Message) :
    ∀ i, ∀ p ∈ mkCompactContent i ms, p.isThink = false := by
  induction ms with
  | nil => intro i p hp; simp [mkCompactContent] at hp
  | cons m rest ih =>
    intro i p hp
    simp only [mkCompactContent, List.cons_append, List.mem_cons, List.mem_append] at hp
    rcases hp with rfl | hp | hp
    · rfl
    · have h2 := (List.mem_filter.mp hp).2
      simpa using h2
    · exact ih (i + 1) p hp



/-- C4: `SimpleCompaction.prepare` counts user/assistant messages from the tail;
if fewer than `max_preserved_messages` exist in the whole history it echoes the
input unchanged with no synthetic message; otherwise the preserved tail is the
verbatim suffix starting at the `max_preserved_messages`-th-from-last
user/assistant message, and when the older prefix is empty the input is again
echoed unchanged, else one synthetic user-role message is produced serializing
the earlier messages as labeled blocks with think parts stripped and ending with
the fixed compaction instruction; with the test's 5 messages and
`max_preserved_messages = 2` the last 2 are preserved verbatim and the first 3
fold into the expected synthetic message. -/
theorem prepare_spec :
    ∀ (maxP : Int) (messages : List Message), 1 ≤ maxP →
      (countUA messages < maxP.toNat →
        prepare maxP messages = (none, messages))
      ∧ (maxP.toNat ≤ countUA messages → messages ≠ [] →
          ∃ pres lm,
            pres.head? = some lm ∧ isUA lm = true ∧ countUA pres = maxP.toNat ∧
            pres.length ≤ messages.length ∧
            pres = messages.drop (messages.length - pres.length) ∧
            ((pres.length = messages.length ∧ prepare maxP messages = (none, messages))
             ∨ (pres.length < messages.length ∧
               prepare maxP messages =
                 (some ⟨Role.user,
                    mkCompactContent 0 (messages.take (messages.length - pres.length))
                      ++ [ContentPart.text ("\n" ++ COMPACT)]⟩, pres))))
      ∧ (∀ cm pres, prepare maxP messages = (some cm, pres) →
          cm.role = Role.user ∧ (∀ p ∈ cm.content, p.isThink = false) ∧
          cm.content.getLast? = some (ContentPart.text ("\n" ++ COMPACT)))
      ∧ prepare 2 demoHistory = (some demoCompactMessage, demoPreserved) := by
  intro maxP messages hmax
  have hn : 1 ≤ maxP.toNat := by omega
  have hcond : ¬ (decide (maxP ≤ 0) = true) := by
    simp only [decide_eq_true_eq]
    omega
  refine ⟨?_, ?_, ?_, by decide⟩
  · intro hcount
    rcases messages with _ | ⟨m0, rest0⟩
    · rfl
    · have hrev : preserveSuffixLen maxP.toNat (m0 :: rest0).reverse = none := by
        rw [preserveSuffixLen_none_iff _ _ hn, countUA_reverse]
        exact hcount
      simp only [prepare, List.isEmpty_cons, Bool.false_or]
      rw [if_neg hcond, hrev]
  · intro hge hne
    rcases messages with _ | ⟨m0, rest0⟩
    · exact absurd rfl hne
    · have hsome : preserveSuffixLen maxP.toNat (m0 :: rest0).reverse ≠ none := by
        intro h0
        rw [preserveSuffixLen_none_iff _ _ hn, countUA_reverse] at h0
        omega
      obtain ⟨s, hs⟩ := Option.ne_none_iff_exists'.mp hsome
      obtain ⟨front, lm, htake, hlm, hslen, hsle, hcnt⟩ :=
        preserveSuffixLen_some _ _ _ hn hs
      have hsle' : s ≤ (m0 :: rest0).length := by simpa using hsle
      have hdropeq : (m0 :: rest0).drop ((m0 :: rest0).length - s) = lm :: front.reverse := by
        have h1 := reverse_take_eq (m0 :: rest0) s hsle'
        rw [htake] at h1
        have h2 := congrArg List.reverse h1
        simpa using h2.symm
      have hpl : ((m0 :: rest0).drop ((m0 :: rest0).length - s)).length = s := by
        rw [hdropeq]
        simp
        omega
      refine ⟨(m0 :: rest0).drop ((m0 :: rest0).length - s), lm, ?_, hlm, ?_, ?_, ?_, ?_⟩
      · rw [hdropeq]
        rfl
      · have hrevp : ((m0 :: rest0).drop ((m0 :: rest0).length - s)).reverse
            = (m0 :: rest0).reverse.take s := by
          rw [reverse_take_eq _ _ hsle']
        calc countUA ((m0 :: rest0).drop ((m0 :: rest0).length - s))
            = countUA ((m0 :: rest0).drop ((m0 :: rest0).length - s)).reverse :=
              (countUA_reverse _).symm
          _ = countUA ((m0 :: rest0).reverse.take s) := by rw [hrevp]
          _ = maxP.toNat := hcnt
      · simp
      · rw [hpl]
      · rw [hpl]
        by_cases hk : (m0 :: rest0).length - s = 0
        · left
          constructor
          · omega
          · simp only [prepare, List.isEmpty_cons, Bool.false_or]
            rw [if_neg hcond, hs]
            show (if (List.take ((m0 :: rest0).length - s) (m0 :: rest0)).isEmpty = true then
                ((none : Option Message), List.drop ((m0 :: rest0).length - s) (m0 :: rest0))
              else
                (some ⟨Role.user,
                    mkCompactContent 0 (List.take ((m0 :: rest0).length - s) (m0 :: rest0))
                      ++ [ContentPart.text ("\n" ++ COMPACT)]⟩,
                  List.drop ((m0 :: rest0).length - s) (m0 :: rest0))) = (none, m0 :: rest0)
            rw [if_pos (by rw [hk]; rfl)]
            rw [hk]
            rfl
        · right
          constructor
          · omega
          · have hne2 : (List.take ((m0 :: rest0).length - s) (m0 :: rest0)).isEmpty = false := by
              cases hq : (m0 :: rest0).length - s with
              | zero => exact absurd hq hk
              | succ k => rfl
            simp only [prepare, List.isEmpty_cons, Bool.false_or]
            rw [if_neg hcond, hs]
            show (if (List.take ((m0 :: rest0).length - s) (m0 :: rest0)).isEmpty = true then
                ((none : Option Message), List.drop ((m0 :: rest0).length - s) (m0 :: rest0))
              else
                (some ⟨Role.user,
                    mkCompactContent 0 (List.take ((m0 :: rest0).length - s) (m0 :: rest0))
                      ++ [ContentPart.text ("\n" ++ COMPACT)]⟩,
                  List.drop ((m0 :: rest0).length - s) (m0 :: rest0))) = _
            rw [if_neg (by simp only [hne2]; exact Bool.false_ne_true)]
  · intro cm pres hcp
    rcases messages with _ | ⟨m0, rest0⟩
    · simp [prepare] at hcp
    · simp only [prepare, List.isEmpty_cons, Bool.false_or] at hcp
      rw [if_neg hcond] at hcp
      cases hsv : preserveSuffixLen maxP.toNat (m0 :: rest0).reverse with
      | none =>
        rw [hsv] at hcp
        simp at hcp
      | some s =>
        simp only [hsv] at hcp
        by_cases hemp : (List.take ((m0 :: rest0).length - s) (m0 :: rest0)).isEmpty = true
        · rw [if_pos hemp] at hcp
          simp at hcp
        · rw [if_neg hemp] at hcp
          have hcm : cm = ⟨Role.user,
              mkCompactContent 0 (List.take ((m0 :: rest0).length - s) (m0 :: rest0))
                ++ [ContentPart.text ("\n" ++ COMPACT)]⟩ := by
            have := congrArg Prod.fst hcp
            simpa using this.symm
          subst hcm
          refine ⟨rfl, ?_, ?_⟩
          · intro p hp
            simp only [List.mem_append, List.mem_singleton] at hp
            rcases hp with hp | rfl
            · exact mkCompactContent_no_think _ 0 p hp
            · rfl
          · exact List.getLast?_concat _

/-- C5: `prepare` with `custom_instruction = None` behaves exactly like the plain
`prepare`; whenever a synthetic compaction message is produced and a custom
instruction is given, the custom-instruction block containing that text is
appended right after the fixed compaction instruction in the final text part, and
with no custom instruction the synthetic message ends with the fixed compaction
instruction alone; the test's 4-message history produces the expected message. -/
theorem prepare_custom_instruction_spec :
    ∀ (maxP : Int) (messages : List Message) (ci : Option String),
      prepareWithInstruction maxP messages none = prepare maxP messages
      ∧ (∀ cm pres s, prepareWithInstruction maxP messages ci = (some cm, pres) →
          ci = some s →
          cm.content.getLast? = some (ContentPart.text
            ("\n" ++ COMPACT ++ customInstructionBlock s)))
      ∧ (∀ cm pres, prepareWithInstruction maxP messages none = (some cm, pres) →
          cm.content.getLast? = some (ContentPart.text ("\n" ++ COMPACT)))
      ∧ prepareWithInstruction 2 demoHistory4 (some demoInstruction)
          = (some demoCompactMessage4, demoPreserved4) := by
  intro maxP messages ci
  refine ⟨rfl, ?_, ?_, by decide⟩
  · intro cm pres s hcp hci
    subst hci
    rcases messages with _ | ⟨m0, rest0⟩
    · simp [prepareWithInstruction] at hcp
    · by_cases hle : maxP ≤ 0
      · simp [prepareWithInstruction, hle] at hcp
      · have hcond : ¬ (decide (maxP ≤ 0) = true) := by
          simp only [decide_eq_true_eq]
          omega
        simp only [prepareWithInstruction, List.isEmpty_cons, Bool.false_or] at hcp
        rw [if_neg hcond] at hcp
        cases hsv : preserveSuffixLen maxP.toNat (m0 :: rest0).reverse with
        | none =>
          rw [hsv] at hcp
          simp at hcp
        | some s' =>
          simp only [hsv] at hcp
          by_cases hemp : (List.take ((m0 :: rest0).length - s') (m0 :: rest0)).isEmpty = true
          · rw [if_pos hemp] at hcp
            simp at hcp
          · rw [if_neg hemp] at hcp
            have hcm : cm = ⟨Role.user,
                mkCompactContent 0 (List.take ((m0 :: rest0).length - s') (m0 :: rest0))
                  ++ [ContentPart.text (finalInstructionText (some s))]⟩ := by
              have h2 := congrArg Prod.fst hcp
              simpa using h2.symm
            subst hcm
            exact List.getLast?_concat _
  · intro cm pres hcp
    rcases messages with _ | ⟨m0, rest0⟩
    · simp [prepareWithInstruction] at hcp
    · by_cases hle : maxP ≤ 0
      · simp [prepareWithInstruction, hle] at hcp
      · have hcond : ¬ (decide (maxP ≤ 0) = true) := by
          simp only [decide_eq_true_eq]
          omega
        simp only [prepareWithInstruction, List.isEmpty_cons, Bool.false_or] at hcp
        rw [if_neg hcond] at hcp
        cases hsv : preserveSuffixLen maxP.toNat (m0 :: rest0).reverse with
        | none =>
          rw [hsv] at hcp
          simp at hcp
        | some s' =>
          simp only [hsv] at hcp
          by_cases hemp : (List.take ((m0 :: rest0).length - s') (m0 :: rest0)).isEmpty = true
          · rw [if_pos hemp] at hcp
            simp at hcp
          · rw [if_neg hemp] at hcp
            have hcm : cm = ⟨Role.user,
                mkCompactContent 0 (List.take ((m0 :: rest0).length - s') (m0 :: rest0))
                  ++ [ContentPart.text (finalInstructionText none)]⟩ := by
              have h2 := congrArg Prod.fst hcp
              simpa using h2.symm
            subst hcm
            exact List.getLast?_concat _

/-- Witness for C4: the theorem applied to the five-message fixture with
`max_preserved_messages = 2`. -/
theorem prepare_spec_witness :
    prepare 2 demoHistory = (some demoCompactMessage, demoPreserved) :=
  (prepare_spec 2 demoHistory (by decide)).2.2.2

/-- Witness for C5: the theorem applied to the four-message fixture with the
test's custom instruction. -/
theorem prepare_custom_instruction_spec_witness :
    demoCompactMessage4.content.getLast?
      = some (ContentPart.text ("\n" ++ COMPACT
          ++ customInstructionBlock demoInstruction)) :=
  (prepare_custom_instruction_spec 2 demoHistory4 (some demoInstruction)).2.1
    demoCompactMessage4 demoPreserved4 demoInstruction (by decide) rfl

end CompactionTheorems

namespace Wire

/-- Optional strings survive the null-or-string encoding. -/
theorem parseOptStr_optStr (i : Option String) : parseOptStr (optStr i) = some i := by
  cases i <;> rfl

/-- Content parts deserialize back from their wire form. -/
theorem parseContentPart_serialize (p : ContentPart) :
    parseContentPart (serializeContentPart p) = some p := by
  cases p with
  | text t => rfl
  | think t => rfl
  | image_url u i => cases i <;> rfl

/-- Element-wise serializers lift to list roundtrips. -/
theorem mapM_roundtrip {α : Type} (f : α → JVal) (g : JVal → Option α)
    (h : ∀ a, g (f a) = some a) (xs : List α) : (xs.map f).mapM g = some xs := by
  induction xs with
  | nil => rfl
  | cons x rest ih =>
    rw [List.map_cons, List.mapM_cons, h, ih]
    rfl

/-- Accumulator form of `mapM_roundtrip`, matching the unfolding of `List.mapM`. -/
theorem mapM_loop_roundtrip {α : Type} (f : α → JVal) (g : JVal → Option α)
    (h : ∀ a, g (f a) = some a) (xs : List α) (acc : List α) :
    List.mapM.loop g (xs.map f) acc = some (acc.reverse ++ xs) := by
  induction xs generalizing acc with
  | nil => simp [List.mapM.loop]
  | cons x rest ih =>
    rw [List.map_cons]
    simp [List.mapM.loop, h, ih]

/-- TurnBegin user input deserializes back from its wire form. -/
theorem parseUserInput_serialize (ui : UserInput) :
    parseUserInput (serializeUserInput ui) = some ui := by
  cases ui with
  | ofStr s => rfl
  | ofParts ps =>
    simp only [serializeUserInput, parseUserInput]
    rw [mapM_roundtrip _ _ parseContentPart_serialize]
    rfl

/-- Natural numbers survive the JSON-number encoding. -/
theorem parseNat_natCast (n : Nat) : parseNat (.num (n : ℚ)) = some n := by
  simp [parseNat]

/-- Token usage deserializes back from its wire form. -/
theorem parseTokenUsage_serialize (u : TokenUsage) :
    parseTokenUsage (serializeTokenUsage u) = some u := by
  simp [serializeTokenUsage, parseTokenUsage, getField, parseNat_natCast]

/-- Display blocks deserialize back from their wire form. -/
theorem parseDisplayBlock_serialize (d : DisplayBlock) :
    parseDisplayBlock (serializeDisplayBlock d) = some d := by
  cases d with
  | brief t => rfl

/-- Approval decisions deserialize back from their wire form. -/
theorem parseApprovalDecision_toStr (d : ApprovalDecision) :
    parseApprovalDecision (.str d.toStr) = some d := by
  cases d <;> rfl

/-- Question options deserialize back from their wire form. -/
theorem parseQuestionOption_serialize (o : QuestionOption) :
    parseQuestionOption (serializeQuestionOption o) = some o := by
  cases o
  rfl

/-- Question items deserialize back from their wire form. -/
theorem parseQuestionItem_serialize (q : QuestionItem) :
    parseQuestionItem (serializeQuestionItem q) = some q := by
  cases q with
  | mk qq h os ms =>
    cases h <;>
      simp [serializeQuestionItem, parseQuestionItem, getField, parseStr, parseOptStr,
        parseBool, optStr, mapM_roundtrip _ _ parseQuestionOption_serialize,
        mapM_loop_roundtrip _ _ parseQuestionOption_serialize]

/-- Every JSON value has positive weight. -/
theorem jweight_pos (j : JVal) : 1 ≤ jweight j := by
  cases j <;> simp [jweight]

/-- With enough fuel for the nesting depth, deserialization inverts serialization. -/
theorem deserializeAux_serialize (m : WireMessage) :
    ∀ fuel, wdepth m ≤ fuel →
      deserializeAux fuel (serialize_wire_message m) = some m := by
  induction m with
  | turnBegin ui =>
    intro fuel hf
    cases fuel with
    | zero => simp [wdepth] at hf
    | succ f =>
      simp [serialize_wire_message, deserializeAux, getField, parseFlatPayload,
        parseUserInput_serialize]
  | turnEnd =>
    intro fuel hf
    cases fuel with
    | zero => simp [wdepth] at hf
    | succ f =>
      simp [serialize_wire_message, deserializeAux, getField, parseFlatPayload]
  | stepBegin n =>
    intro fuel hf
    cases fuel with
    | zero => simp [wdepth] at hf
    | succ f =>
      simp [serialize_wire_message, deserializeAux, getField, parseFlatPayload,
        parseNat_natCast]
  | stepInterrupted =>
    intro fuel hf
    cases fuel with
    | zero => simp [wdepth] at hf
    | succ f =>
      simp [serialize_wire_message, deserializeAux, getField, parseFlatPayload]
  | compactionBegin =>
    intro fuel hf
    cases fuel with
    | zero => simp [wdepth] at hf
    | succ f =>
      simp [serialize_wire_message, deserializeAux, getField, parseFlatPayload]
  | compactionEnd =>
    intro fuel hf
    cases fuel with
    | zero => simp [wdepth] at hf
    | succ f =>
      simp [serialize_wire_message, deserializeAux, getField, parseFlatPayload]
  | statusUpdate cu tu =>
    intro fuel hf
    cases fuel with
    | zero => simp [wdepth] at hf
    | succ f =>
      cases tu <;>
        simp [serialize_wire_message, deserializeAux, getField, parseFlatPayload,
          parseRat, serializeTokenUsage, parseTokenUsage, parseNat_natCast]
  | contentPart p =>
    intro fuel hf
    cases fuel with
    | zero => simp [wdepth] at hf
    | succ f =>
      simp [serialize_wire_message, deserializeAux, getField, parseFlatPayload,
        parseContentPart_serialize]
  | toolCall i nm as =>
    intro fuel hf
    cases fuel with
    | zero => simp [wdepth] at hf
    | succ f =>
      simp [serialize_wire_message, deserializeAux, getField, parseFlatPayload,
        parseStr, parseOptStr_optStr]
  | toolCallPart ap =>
    intro fuel hf
    cases fuel with
    | zero => simp [wdepth] at hf
    | succ f =>
      simp [serialize_wire_message, deserializeAux, getField, parseFlatPayload, parseStr]
  | toolResult tci ie out msg disp =>
    intro fuel hf
    cases fuel with
    | zero => simp [wdepth] at hf
    | succ f =>
      simp [serialize_wire_message, deserializeAux, getField, parseFlatPayload,
        parseStr, parseBool, mapM_roundtrip _ _ parseDisplayBlock_serialize,
        mapM_loop_roundtrip _ _ parseDisplayBlock_serialize]
  | approvalResponse rid resp =>
    intro fuel hf
    cases fuel with
    | zero => simp [wdepth] at hf
    | succ f =>
      simp [serialize_wire_message, deserializeAux, getField, parseFlatPayload,
        parseStr, parseApprovalDecision_toStr]
  | subagentEvent tid ev ih =>
    intro fuel hf
    cases fuel with
    | zero => simp [wdepth] at hf
    | succ f =>
      have hev : wdepth ev ≤ f := by
        simp only [wdepth] at hf
        omega
      simp [serialize_wire_message, deserializeAux, getField, ih f hev]
  | approvalRequest i tci snd act desc disp =>
    intro fuel hf
    cases fuel with
    | zero => simp [wdepth] at hf
    | succ f =>
      simp [serialize_wire_message, deserializeAux, getField, parseFlatPayload,
        parseStr, mapM_roundtrip _ _ parseDisplayBlock_serialize,
        mapM_loop_roundtrip _ _ parseDisplayBlock_serialize]
  | questionRequest i tci qs =>
    intro fuel hf
    cases fuel with
    | zero => simp [wdepth] at hf
    | succ f =>
      simp [serialize_wire_message, deserializeAux, getField, parseFlatPayload,
        parseStr, mapM_roundtrip _ _ parseQuestionItem_serialize,
        mapM_loop_roundtrip _ _ parseQuestionItem_serialize]
  | toolCallRequest i nm as =>
    intro fuel hf
    cases fuel with
    | zero => simp [wdepth] at hf
    | succ f =>
      simp [serialize_wire_message, deserializeAux, getField, parseFlatPayload, parseStr]

/-- The weight of a serialized message dominates its nesting depth, so `deserialize_wire_message` always has enough fuel. -/
theorem wdepth_le_jweight (m : WireMessage) :
    wdepth m ≤ jweight (serialize_wire_message m) := by
  induction m with
  | subagentEvent tid ev ih =>
    simp only [serialize_wire_message, wdepth, jweight, jweightFields] at ih ⊢
    omega
  | turnBegin ui => exact le_trans (by simp [wdepth]) (jweight_pos _)
  | turnEnd => exact le_trans (by simp [wdepth]) (jweight_pos _)
  | stepBegin n => exact le_trans (by simp [wdepth]) (jweight_pos _)
  | stepInterrupted => exact le_trans (by simp [wdepth]) (jweight_pos _)
  | compactionBegin => exact le_trans (by simp [wdepth]) (jweight_pos _)
  | compactionEnd => exact le_trans (by simp [wdepth]) (jweight_pos _)
  | statusUpdate cu tu => exact le_trans (by simp [wdepth]) (jweight_pos _)
  | contentPart p => exact le_trans (by simp [wdepth]) (jweight_pos _)
  | toolCall i nm as => exact le_trans (by simp [wdepth]) (jweight_pos _)
  | toolCallPart ap => exact le_trans (by simp [wdepth]) (jweight_pos _)
  | toolResult tci ie out msg disp => exact le_trans (by simp [wdepth]) (jweight_pos _)
  | approvalResponse rid resp => exact le_trans (by simp [wdepth]) (jweight_pos _)
  | approvalRequest i tci snd act desc disp => exact le_trans (by simp [wdepth]) (jweight_pos _)
  | questionRequest i tci qs => exact le_trans (by simp [wdepth]) (jweight_pos _)
  | toolCallRequest i nm as => exact le_trans (by simp [wdepth]) (jweight_pos _)

/-- C7: for every `WireMessage` variant `m`,
`deserialize_wire_message (serialize_wire_message m) = m`, and the legacy type
alias `ApprovalRequestResolved` deserializes to the canonical `ApprovalResponse`
with the same payload fields. -/
theorem wire_serde_roundtrip :
    (∀ m : WireMessage,
      deserialize_wire_message (serialize_wire_message m) = some m)
    ∧ (∀ (rid : String) (d : ApprovalDecision),
      deserialize_wire_message
          (.obj [("type", .str "ApprovalRequestResolved"),
            ("payload", .obj [("request_id", .str rid), ("response", .str d.toStr)])])
        = some (.approvalResponse rid d)) := by
  constructor
  · intro m
    rw [deserialize_wire_message]
    exact deserializeAux_serialize m _ (wdepth_le_jweight m)
  · intro rid d
    have h5 : jweight (.obj [("type", .str "ApprovalRequestResolved"),
        ("payload", .obj [("request_id", .str rid), ("response", .str d.toStr)])]) = 5 := by
      simp [jweight, jweightFields]
    rw [deserialize_wire_message, h5]
    simp [deserializeAux, getField, parseFlatPayload, parseStr, parseApprovalDecision_toStr]

end Wire

end KimiCli
